import Mathlib

/-!
Verification of the ZPLC host toolchain (assembler, module encoder,
transport client) against its specification.

The Python sources `tools/zplc_asm.py`, `tools/hil/zplc_tester.py` and
`tools/hil/language_tester.py` are shallowly embedded below: pure helper
functions become Lean functions, the assembler's mutable `self` becomes an
explicit `AsmState` threaded through `Except`, a Python `raise` becomes an
`Except.error` and a normal `return` becomes `Except.ok`.  Python's
unbounded integers are `Int`; byte strings are `List Nat` whose elements
are kept below 256 by the same masking operations (`& 0xFF`, `% 2^k`)
that the source performs.
-/

namespace ZPLC

/-- Little-endian byte encoding of `v` on `k` bytes, as produced by
`struct.pack` with formats B/H/I once the source has masked the value. -/
def leBytes : Nat → Nat → List Nat
  | 0, _ => []
  | k + 1, v => (v % 256) :: leBytes k (v / 256)

theorem leBytes_length (k v : Nat) : (leBytes k v).length = k := by
  induction k generalizing v with
  | zero => rfl
  | succ k ih => simp [leBytes, ih]

/-- The opcode table of `zplc_asm.py` (`class Opcode(IntEnum)`): the
assigned mnemonic/byte pairs.  It is the single model of the Python enum;
name lookup (`OPCODE_BY_NAME`) and value lookup (`opcode_names`) are both
derived from it, exactly as both Python dicts are built from the enum. -/
def opcodeTable : List (List Char × Nat) :=
  [("NOP".toList, 0x00), ("HALT".toList, 0x01), ("BREAK".toList, 0x02),
   ("GET_TICKS".toList, 0x03),
   ("DUP".toList, 0x10), ("DROP".toList, 0x11), ("SWAP".toList, 0x12),
   ("OVER".toList, 0x13), ("ROT".toList, 0x14),
   ("ADD".toList, 0x20), ("SUB".toList, 0x21), ("MUL".toList, 0x22),
   ("DIV".toList, 0x23), ("MOD".toList, 0x24), ("NEG".toList, 0x25),
   ("ABS".toList, 0x26),
   ("ADDF".toList, 0x28), ("SUBF".toList, 0x29), ("MULF".toList, 0x2A),
   ("DIVF".toList, 0x2B), ("NEGF".toList, 0x2C), ("ABSF".toList, 0x2D),
   ("AND".toList, 0x30), ("OR".toList, 0x31), ("XOR".toList, 0x32),
   ("NOT".toList, 0x33), ("SHL".toList, 0x34), ("SHR".toList, 0x35),
   ("SAR".toList, 0x36),
   ("EQ".toList, 0x38), ("NE".toList, 0x39), ("LT".toList, 0x3A),
   ("LE".toList, 0x3B), ("GT".toList, 0x3C), ("GE".toList, 0x3D),
   ("LTU".toList, 0x3E), ("GTU".toList, 0x3F),
   ("PUSH8".toList, 0x40), ("JR".toList, 0x50), ("JRZ".toList, 0x51),
   ("JRNZ".toList, 0x52),
   ("LOAD8".toList, 0x80), ("LOAD16".toList, 0x81), ("LOAD32".toList, 0x82),
   ("LOAD64".toList, 0x83), ("STORE8".toList, 0x84), ("STORE16".toList, 0x85),
   ("STORE32".toList, 0x86), ("STORE64".toList, 0x87), ("PUSH16".toList, 0x88),
   ("JMP".toList, 0x90), ("JZ".toList, 0x91), ("JNZ".toList, 0x92),
   ("CALL".toList, 0x93), ("RET".toList, 0x94),
   ("I2F".toList, 0xA0), ("F2I".toList, 0xA1), ("I2B".toList, 0xA2),
   ("EXT8".toList, 0xA3), ("EXT16".toList, 0xA4), ("ZEXT8".toList, 0xA5),
   ("ZEXT16".toList, 0xA6),
   ("PUSH32".toList, 0xC0)]

/-- The `OPCODE_BY_NAME` lookup: mnemonic → opcode byte. -/
def OPCODE_BY_NAME (name : List Char) : Option Nat :=
  (opcodeTable.find? (fun p => p.1 = name)).map (fun p => p.2)

/-- The `opcode_names` reverse lookup used by `disassemble`: byte → mnemonic. -/
def opcode_names (v : Nat) : Option (List Char) :=
  (opcodeTable.find? (fun p => p.2 = v)).map (fun p => p.1)

/-- Function `get_operand_size` from `zplc_asm.py`: operand size in bytes for an
opcode byte, special cases first, then the standard range encoding. -/
def get_operand_size (opcode : Nat) : Nat :=
  if opcode = 0x94 then 0
  else if 0xA0 ≤ opcode ∧ opcode ≤ 0xA6 then 0
  else if opcode < 0x40 then 0
  else if opcode < 0x80 then 1
  else if opcode < 0xC0 then 2
  else 4

/-- The purely range-based operand width documented in the
`get_operand_size` docstring (the rule the exceptions deviate from). -/
def rangeWidth (opcode : Nat) : Nat :=
  if opcode < 0x40 then 0
  else if opcode < 0x80 then 1
  else if opcode < 0xC0 then 2
  else 4

/-! ### Text helpers shared by the assembler embedding

These model the Python string primitives used by `zplc_asm.py`:
`str.strip`, `str.upper`, `str.splitlines`, `str.split(',')`, the two
identifier regexes, and the numeric grammar of `int(...)`. -/

/-- Python `str.strip()`: drop whitespace from both ends. -/
def stripChars (s : List Char) : List Char :=
  ((s.dropWhile Char.isWhitespace).reverse.dropWhile Char.isWhitespace).reverse

def isIdentStart (c : Char) : Bool := c.isAlpha || c = '_'

def isIdentChar (c : Char) : Bool := c.isAlpha || c.isDigit || c = '_'

/-- Full-string match of the regex used for operands and `.ENTRY`. -/
def isIdent : List Char → Bool
  | [] => false
  | c :: cs => isIdentStart c && cs.all isIdentChar

/-- Python `str.upper()` (the sources only apply it to ASCII). -/
def upper (s : List Char) : List Char := s.map Char.toUpper

/-- Hex digit value, the character class `[0-9A-Fa-f]`. -/
def hexVal (c : Char) : Option Nat :=
  if '0' ≤ c ∧ c ≤ '9' then some (c.toNat - 48)
  else if 'a' ≤ c ∧ c ≤ 'f' then some (c.toNat - 87)
  else if 'A' ≤ c ∧ c ≤ 'F' then some (c.toNat - 55)
  else none

def parseDigitsAux (base : Nat) : Nat → List Char → Option Nat
  | acc, [] => some acc
  | acc, c :: cs =>
    match hexVal c with
    | some d => if d < base then parseDigitsAux base (acc * base + d) cs else none
    | none => none

/-- Digit-string parse in the given base; at least one digit required.
(Python's `int` additionally accepts underscore separators between
digits, a corner of the literal grammar not modelled here.) -/
def parseDigits (base : Nat) (s : List Char) : Option Nat :=
  if s.isEmpty then none else parseDigitsAux base 0 s

/-- Python `int(s)` on an already-stripped string: optional single sign,
then decimal digits. -/
def parseIntPy (s : List Char) : Option Int :=
  match s with
  | '-' :: t => (parseDigits 10 t).map (fun v => -(v : Int))
  | '+' :: t => (parseDigits 10 t).map (fun v => (v : Int))
  | t => (parseDigits 10 t).map (fun v => (v : Int))

/-- The fixed escape set of character literals in `parse_number`. -/
def escapeVal (c : Char) : Option Nat :=
  if c = 'n' then some 10 else if c = 'r' then some 13
  else if c = 't' then some 9 else if c = '\\' then some 92
  else if c = '\'' then some 39 else if c = '0' then some 0 else none

/-- Method `ZPLCAssembler.parse_number`: character literal first, then a single
leading sign, then base dispatch on the `0x`/`0b`/`0o` prefixes, else
decimal.  `none` models the `ValueError` paths. -/
def parse_number (s0 : List Char) : Option Int :=
  let s := stripChars s0
  match s with
  | [] => none
  | c0 :: rest =>
    if c0 = '\'' ∧ s.getLast? = some '\'' ∧ 3 ≤ s.length then
      match rest with
      | c1 :: rest2 =>
        if c1 = '\\' then
          match rest2 with
          | c2 :: _ =>
            match (if 4 ≤ s.length then escapeVal c2 else none) with
            | some v => some (v : Int)
            | none => some (c1.toNat : Int)
          | [] => some (c1.toNat : Int)
        else some (c1.toNat : Int)
      | [] => none
    else
      let (neg, s1) :=
        if c0 = '-' then (true, rest)
        else if c0 = '+' then (false, rest)
        else (false, s)
      let v? : Option Int :=
        match s1 with
        | '0' :: x :: t =>
          if x = 'x' ∨ x = 'X' then (parseDigits 16 t).map (fun v => (v : Int))
          else if x = 'b' ∨ x = 'B' then (parseDigits 2 t).map (fun v => (v : Int))
          else if x = 'o' ∨ x = 'O' then (parseDigits 8 t).map (fun v => (v : Int))
          else parseIntPy s1
        | _ => parseIntPy s1
      match v? with
      | some v => some (if neg then -v else v)
      | none => none

/-- Python `str.splitlines` (for the separators `\n`, `\r\n`, `\r`):
no trailing empty line, and the empty string has no lines. -/
def splitLinesGo : List Char → List Char → List (List Char)
  | [], acc => if acc.isEmpty then [] else [acc.reverse]
  | '\r' :: '\n' :: t, acc => acc.reverse :: splitLinesGo t []
  | '\r' :: t, acc => acc.reverse :: splitLinesGo t []
  | '\n' :: t, acc => acc.reverse :: splitLinesGo t []
  | c :: t, acc => splitLinesGo t (c :: acc)

def splitLines (s : List Char) : List (List Char) := splitLinesGo s []

/-- Python `str.split(',')`: separators kept as empty pieces. -/
def splitOnComma : List Char → List (List Char)
  | [] => [[]]
  | c :: t =>
    if c = ',' then [] :: splitOnComma t
    else
      match splitOnComma t with
      | h :: r => (c :: h) :: r
      | [] => [[c]]

theorem get_operand_size_cases (op : Nat) :
    get_operand_size op = 0 ∨ get_operand_size op = 1 ∨
    get_operand_size op = 2 ∨ get_operand_size op = 4 := by
  unfold get_operand_size
  split
  · exact Or.inl rfl
  · split
    · exact Or.inl rfl
    · split
      · exact Or.inl rfl
      · split
        · exact Or.inr (Or.inl rfl)
        · split
          · exact Or.inr (Or.inr (Or.inl rfl))
          · exact Or.inr (Or.inr (Or.inr rfl))

/-! ### Assembler data model (`zplc_asm.py`) -/

/-- A label definition (`@dataclass Label`). -/
structure Label where
  name : List Char
  address : Int
  line_num : Nat
deriving DecidableEq

/-- A parsed instruction (`@dataclass Instruction`). -/
structure Instruction where
  opcode : Nat
  operand : Option Int
  operand_label : Option (List Char)
  line_num : Nat
  address : Int
deriving DecidableEq

/-- The distinct error messages `AssemblerError` is raised with. -/
inductive ErrKind where
  | duplicateLabel (name : List Char)
  | unknownInstruction (mnemonic : List Char)
  | requiresOperand (mnemonic : List Char)
  | takesNoOperand (mnemonic : List Char)
  | invalidOperand (operand : List Char)
  | unknownDirective (d : List Char)
  | invalidOrg
  | invalidEntry
  | valueError
  | undefinedLabel (name : List Char)
  | relOutOfRange (name : List Char) (offset : Int)
  | undefinedEntry (name : List Char)
deriving DecidableEq

/-- Class `AssemblerError`: message kind plus the source line number. -/
structure AsmErr where
  kind : ErrKind
  line_num : Nat
deriving DecidableEq

/-- The mutable fields of `ZPLCAssembler` threaded explicitly. -/
structure AsmState where
  instructions : List Instruction
  labels : List (List Char × Label)
  entry_point : Int ⊕ List Char
  current_address : Int
deriving DecidableEq

instance {ε α : Type} [DecidableEq ε] [DecidableEq α] : DecidableEq (Except ε α) :=
  fun a b =>
    match a, b with
    | .error e, .error f =>
      if h : e = f then .isTrue (by rw [h]) else .isFalse (by simp [h])
    | .error _, .ok _ => .isFalse (by simp)
    | .ok _, .error _ => .isFalse (by simp)
    | .ok x, .ok y =>
      if h : x = y then .isTrue (by rw [h]) else .isFalse (by simp [h])

/-- The state set up by `__init__`/the start of `assemble`. -/
def initState : AsmState := ⟨[], [], Sum.inl 0, 0⟩

/-- Dictionary lookup on the label table (keys are unique because
re-definition is rejected before insertion). -/
def lookupAssoc (labels : List (List Char × Label)) (name : List Char) :
    Option Label :=
  (labels.find? (fun p => p.1 = name)).map (fun p => p.2)

/-- The three relative-branch opcodes JR, JRZ, JRNZ. -/
def relOps : List Nat := [0x50, 0x51, 0x52]

/-- Method `ZPLCAssembler.parse_operand`: identifier → unresolved label
reference, otherwise a number; a failing number parse is the
`Invalid operand` error. -/
def parse_operand (s0 : List Char) (line_num : Nat) :
    Except AsmErr (Option Int × Option (List Char)) :=
  let s := stripChars s0
  if s.isEmpty then .ok (none, none)
  else if isIdent s then .ok (none, some s)
  else
    match parse_number s with
    | some v => .ok (some v, none)
    | none => .error ⟨.invalidOperand s, line_num⟩

/-- The leading-label regex of `parse_line`: an identifier, optional
whitespace, then a colon; returns the raw name and the rest of the line
after the colon. -/
def matchLabel (s : List Char) : Option (List Char × List Char) :=
  match s with
  | [] => none
  | c :: rest =>
    if isIdentStart c then
      let name := c :: rest.takeWhile isIdentChar
      let after := (rest.dropWhile isIdentChar).dropWhile Char.isWhitespace
      match after with
      | ':' :: r => some (name, r)
      | _ => none
    else none

/-- The `.DB`/`.BYTE` loop: each comma-separated piece is parsed (a
parse failure propagates as an error) and the address cursor advances by
one byte per value; nothing else in the state changes. -/
def dbLoop (line_num : Nat) : AsmState → List (List Char) → Except AsmErr AsmState
  | st, [] => .ok st
  | st, piece :: rest =>
    match parse_number (stripChars piece) with
    | some _ =>
        dbLoop line_num {st with current_address := st.current_address + 1} rest
    | none => .error ⟨.valueError, line_num⟩

/-- Method `ZPLCAssembler.handle_directive` for `.ORG`, `.ENTRY`, `.DB`/`.BYTE`;
anything else is the `Unknown directive` error.  `directive` arrives
already uppercased, as in `parse_line`. -/
def handle_directive (st : AsmState) (directive operand : List Char)
    (line_num : Nat) : Except AsmErr AsmState :=
  if directive = ".ORG".toList then
    match parse_number operand with
    | some v => .ok {st with current_address := v}
    | none => .error ⟨.invalidOrg, line_num⟩
  else if directive = ".ENTRY".toList then
    let op := stripChars operand
    if isIdent op then .ok {st with entry_point := Sum.inr (upper op)}
    else
      match parse_number op with
      | some v => .ok {st with entry_point := Sum.inl v}
      | none => .error ⟨.invalidEntry, line_num⟩
  else if directive = ".DB".toList ∨ directive = ".BYTE".toList then
    dbLoop line_num st (splitOnComma operand)
  else .error ⟨.unknownDirective directive, line_num⟩

/-- The instruction part of `parse_line` after the optional label was
taken off: split off the mnemonic, dispatch directives, look up the
opcode, check operand arity, parse the operand, append the instruction
and advance the address by `1 + operand_size`. -/
def parseInstrPart (st : AsmState) (l : List Char) (line_num : Nat) :
    Except AsmErr AsmState :=
  let mnemonic0 := l.takeWhile (fun c => !c.isWhitespace)
  let rest := (l.dropWhile (fun c => !c.isWhitespace)).dropWhile Char.isWhitespace
  let mnemonic := upper mnemonic0
  if mnemonic.head? = some '.' then handle_directive st mnemonic rest line_num
  else
    match OPCODE_BY_NAME mnemonic with
    | none => .error ⟨.unknownInstruction mnemonic, line_num⟩
    | some opcode =>
      let osize := get_operand_size opcode
      if 0 < osize then
        if rest.isEmpty then .error ⟨.requiresOperand mnemonic, line_num⟩
        else
          match parse_operand rest line_num with
          | .error e => .error e
          | .ok (v, lab) =>
            .ok {st with
                  instructions := st.instructions ++
                    [⟨opcode, v, lab, line_num, st.current_address⟩],
                  current_address := st.current_address + (1 + osize)}
      else
        if !rest.isEmpty then .error ⟨.takesNoOperand mnemonic, line_num⟩
        else
          .ok {st with
                instructions := st.instructions ++
                  [⟨opcode, none, none, line_num, st.current_address⟩],
                current_address := st.current_address + 1}

/-- Method `ZPLCAssembler.parse_line`: strip the comment, skip blank lines,
take off an optional leading `label:` (re-definition fails immediately),
then parse the instruction part if any text remains. -/
def parse_line (st : AsmState) (line0 : List Char) (line_num : Nat) :
    Except AsmErr AsmState :=
  let l2 := stripChars (line0.takeWhile (fun c => c ≠ ';'))
  if l2.isEmpty then .ok st
  else
    match matchLabel l2 with
    | some (name0, r) =>
      let name := upper name0
      match lookupAssoc st.labels name with
      | some _ => .error ⟨.duplicateLabel name, line_num⟩
      | none =>
        let st1 := {st with
          labels := st.labels ++ [(name, ⟨name, st.current_address, line_num⟩)]}
        let l3 := stripChars r
        if l3.isEmpty then .ok st1 else parseInstrPart st1 l3 line_num
    | none => parseInstrPart st l2 line_num

/-- Pass 1 driver: feed the numbered lines to `parse_line`, stopping at
the first error (the first raised `AssemblerError` aborts `assemble`). -/
def runLines : AsmState → List (List Char × Nat) → Except AsmErr AsmState
  | st, [] => .ok st
  | st, (l, n) :: rest =>
    match parse_line st l n with
    | .ok st' => runLines st' rest
    | .error e => .error e

/-- Python `enumerate(source.splitlines(), 1)`. -/
def numberLines (src : List Char) : List (List Char × Nat) :=
  (splitLines src).zip (List.range' 1 (splitLines src).length)

def pass1 (st : AsmState) (src : List Char) : Except AsmErr AsmState :=
  runLines st (numberLines src)

/-- Pass 2 on one instruction: resolve its label reference if any; for
JR/JRZ/JRNZ the operand is the relative offset from the address after the
2-byte instruction, range-checked and wrapped with `& 0xFF`; all other
opcodes get the label's absolute address. -/
def resolveInstr (labels : List (List Char × Label)) (i : Instruction) :
    Except AsmErr Instruction :=
  match i.operand_label with
  | none => .ok i
  | some l =>
    let name := upper l
    match lookupAssoc labels name with
    | none => .error ⟨.undefinedLabel name, i.line_num⟩
    | some lab =>
      if i.opcode ∈ relOps then
        let offset := lab.address - (i.address + 2)
        if offset < -128 ∨ 127 < offset then
          .error ⟨.relOutOfRange name offset, i.line_num⟩
        else .ok {i with operand := some (offset.emod 256)}
      else .ok {i with operand := some lab.address}

def resolveInstrs (labels : List (List Char × Label)) :
    List Instruction → Except AsmErr (List Instruction)
  | [] => .ok []
  | i :: rest =>
    match resolveInstr labels i with
    | .error e => .error e
    | .ok i' =>
      match resolveInstrs labels rest with
      | .error e => .error e
      | .ok rest' => .ok (i' :: rest')

/-- Method `ZPLCAssembler.resolve_labels`: resolve every instruction, then a
symbolic entry point. -/
def resolve_labels (st : AsmState) : Except AsmErr AsmState :=
  match resolveInstrs st.labels st.instructions with
  | .error e => .error e
  | .ok instrs' =>
    match st.entry_point with
    | Sum.inl _ => .ok {st with instructions := instrs'}
    | Sum.inr name =>
      match lookupAssoc st.labels name with
      | none => .error ⟨.undefinedEntry name, 0⟩
      | some lab =>
        .ok {st with instructions := instrs', entry_point := Sum.inl lab.address}

/-- One instruction's bytes in `emit_bytecode`: the opcode byte, then
the operand (default 0) masked to its width, little-endian. -/
def encodeInstr (i : Instruction) : List Nat :=
  let osize := get_operand_size i.opcode
  let v : Int := i.operand.getD 0
  i.opcode ::
    (if osize = 1 then leBytes 1 (v.emod 256).toNat
     else if osize = 2 then leBytes 2 (v.emod 65536).toNat
     else if osize = 4 then leBytes 4 (v.emod 4294967296).toNat
     else [])

def emitList : List Instruction → List Nat
  | [] => []
  | i :: rest => encodeInstr i ++ emitList rest

/-- Method `ZPLCAssembler.emit_bytecode`: instructions in list order. -/
def emit_bytecode (st : AsmState) : List Nat := emitList st.instructions

/-- Method `ZPLCAssembler.assemble`: pass 1, pass 2, emission. -/
def assemble (src : List Char) : Except AsmErr (AsmState × List Nat) :=
  match pass1 initState src with
  | .error e => .error e
  | .ok st1 =>
    match resolve_labels st1 with
    | .error e => .error e
    | .ok st2 => .ok (st2, emit_bytecode st2)

/-! ### Disassembler (`disassemble` in `zplc_asm.py`)

The Python function renders text lines; each constructor below carries
exactly the data that one rendered line is built from (address, mnemonic
and decoded operand; for relative jumps the signed operand and the
computed target). -/

inductive DisLine where
  | unknown (addr : Nat) (opcode : Nat)
  | truncated (addr : Nat) (name : List Char)
  | noOperand (addr : Nat) (name : List Char)
  | rel8 (addr : Nat) (name : List Char) (signedOp : Int) (target : Int)
  | op8 (addr : Nat) (name : List Char) (operand : Nat)
  | op16 (addr : Nat) (name : List Char) (operand : Nat)
  | op32 (addr : Nat) (name : List Char) (operand : Nat)
deriving DecidableEq

/-- Function `disassemble`: walk the byte stream; an unknown opcode produces one
`unknown` line and the scan advances one byte; a missing trailing operand
produces one `truncated` line and stops; otherwise the operand is read
little-endian at the opcode's declared width (signed display for the
relative branches). -/
def disassemble : List Nat → Nat → List DisLine
  | [], _ => []
  | op :: rest, addr =>
    match opcode_names op with
    | none => .unknown addr op :: disassemble rest (addr + 1)
    | some name =>
      if get_operand_size op = 0 then
        .noOperand addr name :: disassemble rest (addr + 1)
      else if get_operand_size op = 1 then
        match rest with
        | [] => [.truncated addr name]
        | b :: rest1 =>
          if op ∈ relOps then
            .rel8 addr name (if b < 128 then (b : Int) else (b : Int) - 256)
                ((addr : Int) + 2 + (if b < 128 then (b : Int) else (b : Int) - 256)) ::
              disassemble rest1 (addr + 2)
          else .op8 addr name b :: disassemble rest1 (addr + 2)
      else if get_operand_size op = 2 then
        match rest with
        | b0 :: b1 :: rest2 =>
          .op16 addr name (b0 + 256 * b1) :: disassemble rest2 (addr + 3)
        | _ => [.truncated addr name]
      else
        match rest with
        | b0 :: b1 :: b2 :: b3 :: rest4 =>
          .op32 addr name (b0 + 256 * b1 + 65536 * b2 + 16777216 * b3) ::
            disassemble rest4 (addr + 5)
        | _ => [.truncated addr name]

/-- One disassembled line reproduces one assembled instruction: same
mnemonic, and the same operand value at the opcode's declared width (a
value is compared modulo `2^(8·width)`, which is how `emit_bytecode`
stores it; the relative branches display the signed byte, equal mod 256). -/
def decodesTo (d : DisLine) (i : Instruction) : Prop :=
  let w := get_operand_size i.opcode
  let v : Int := i.operand.getD 0
  match d with
  | .noOperand _ n => opcode_names i.opcode = some n ∧ w = 0
  | .rel8 _ n s _ => opcode_names i.opcode = some n ∧ w = 1 ∧
      s.emod 256 = v.emod 256
  | .op8 _ n b => opcode_names i.opcode = some n ∧ w = 1 ∧ (b : Int) = v.emod 256
  | .op16 _ n x => opcode_names i.opcode = some n ∧ w = 2 ∧ (x : Int) = v.emod 65536
  | .op32 _ n x => opcode_names i.opcode = some n ∧ w = 4 ∧
      (x : Int) = v.emod 4294967296
  | _ => False

/-! ### Round-trip: `disassemble` after `emit_bytecode` -/

theorem emod_toNat_cast (v : Int) (m : Nat) (hm : 0 < m) :
    ((v.emod m).toNat : Int) = v.emod m :=
  Int.toNat_of_nonneg (Int.emod_nonneg v (by exact_mod_cast hm.ne'))

theorem emod_toNat_lt (v : Int) (m : Nat) (hm : 0 < m) : (v.emod m).toNat < m := by
  have h1 : v.emod (m : Int) < m := Int.emod_lt_of_pos v (by exact_mod_cast hm)
  have h2 : 0 ≤ v.emod (m : Int) := Int.emod_nonneg v (by positivity)
  omega

theorem OPCODE_BY_NAME_assigned {m : List Char} {v : Nat}
    (h : OPCODE_BY_NAME m = some v) : (opcode_names v).isSome := by
  unfold OPCODE_BY_NAME at h
  cases hf : opcodeTable.find? (fun p => p.1 = m) with
  | none => simp [hf] at h
  | some p =>
    have hv : p.2 = v := by simp [hf] at h; exact h
    have hmem : p ∈ opcodeTable := List.mem_of_find?_eq_some hf
    unfold opcode_names
    cases hg : opcodeTable.find? (fun q => q.2 = v) with
    | some q => simp
    | none =>
      exact absurd (by simpa using hv)
        (by simpa using List.find?_eq_none.mp hg p hmem)

/-- Decoding one emitted instruction: if the opcode is an assigned one,
`disassemble` consumes exactly its bytes, produces one line that matches
it, and continues at the next instruction's address. -/
theorem disassemble_encode_cons (i : Instruction) (tail : List Nat) (addr : Nat)
    (name : List Char) (h : opcode_names i.opcode = some name) :
    ∃ d, disassemble (encodeInstr i ++ tail) addr =
        d :: disassemble tail (addr + (1 + get_operand_size i.opcode)) ∧
      decodesTo d i := by
  rcases get_operand_size_cases i.opcode with h0 | h1 | h2 | h4
  · refine ⟨.noOperand addr name, ?_, ?_⟩
    · simp [encodeInstr, h0, disassemble, h]
    · simp [decodesTo, h, h0]
  · have hb : (((i.operand.getD 0).emod 256).toNat : Int) =
        (i.operand.getD 0).emod 256 := emod_toNat_cast _ 256 (by norm_num)
    have hblt : ((i.operand.getD 0).emod 256).toNat < 256 :=
      emod_toNat_lt _ 256 (by norm_num)
    set b := ((i.operand.getD 0).emod 256).toNat with hbdef
    by_cases hrel : i.opcode ∈ relOps
    · refine ⟨.rel8 addr name (if b < 128 then (b : Int) else (b : Int) - 256)
        ((addr : Int) + 2 + (if b < 128 then (b : Int) else (b : Int) - 256)), ?_, ?_⟩
      · simp [encodeInstr, h1, leBytes, disassemble, h, hrel, Nat.mod_eq_of_lt hblt]
      · refine ⟨h, h1, ?_⟩
        rw [← hb]
        split
        · exact Int.emod_eq_of_lt (by positivity) (by exact_mod_cast hblt)
        · have hre : ((b : Int) - 256) = (b : Int) + 256 * (-1) := by ring
          rw [hre]
          show ((b : Int) + 256 * (-1)) % 256 = (b : Int)
          rw [Int.add_mul_emod_self_left]
          exact Int.emod_eq_of_lt (by positivity) (by exact_mod_cast hblt)
    · refine ⟨.op8 addr name b, ?_, ?_⟩
      · simp [encodeInstr, h1, leBytes, disassemble, h, hrel, Nat.mod_eq_of_lt hblt]
      · exact ⟨h, h1, hb⟩
  · have hb : (((i.operand.getD 0).emod 65536).toNat : Int) =
        (i.operand.getD 0).emod 65536 := emod_toNat_cast _ 65536 (by norm_num)
    have hblt : ((i.operand.getD 0).emod 65536).toNat < 65536 :=
      emod_toNat_lt _ 65536 (by norm_num)
    set x := ((i.operand.getD 0).emod 65536).toNat with hxdef
    refine ⟨.op16 addr name (x % 256 + 256 * (x / 256 % 256)), ?_, ?_⟩
    · simp [encodeInstr, h2, leBytes, disassemble, h]
    · refine ⟨h, h2, ?_⟩
      have : x % 256 + 256 * (x / 256 % 256) = x := by omega
      rw [this, hb]
  · have hb : (((i.operand.getD 0).emod 4294967296).toNat : Int) =
        (i.operand.getD 0).emod 4294967296 := emod_toNat_cast _ 4294967296 (by norm_num)
    have hblt : ((i.operand.getD 0).emod 4294967296).toNat < 4294967296 :=
      emod_toNat_lt _ 4294967296 (by norm_num)
    set x := ((i.operand.getD 0).emod 4294967296).toNat with hxdef
    refine ⟨.op32 addr name
      (x % 256 + 256 * (x / 256 % 256) + 65536 * (x / 256 / 256 % 256) +
        16777216 * (x / 256 / 256 / 256 % 256)), ?_, ?_⟩
    · simp [encodeInstr, h4, leBytes, disassemble, h]
    · refine ⟨h, h4, ?_⟩
      have : x % 256 + 256 * (x / 256 % 256) + 65536 * (x / 256 / 256 % 256) +
          16777216 * (x / 256 / 256 / 256 % 256) = x := by omega
      rw [this, hb]

/-- Core round-trip: a list of instructions whose opcodes are all
assigned disassembles, from its emitted bytes, to exactly one matching
line per instruction. -/
theorem emit_disassemble (instrs : List Instruction)
    (h : ∀ i ∈ instrs, (opcode_names i.opcode).isSome) (addr : Nat) :
    List.Forall₂ decodesTo (disassemble (emitList instrs) addr) instrs := by
  induction instrs generalizing addr with
  | nil => simp [emitList, disassemble]
  | cons i rest ih =>
    have hi : (opcode_names i.opcode).isSome := h i (by simp)
    obtain ⟨name, hname⟩ := Option.isSome_iff_exists.mp hi
    obtain ⟨d, hd, hdec⟩ := disassemble_encode_cons i (emitList rest) addr name hname
    rw [emitList, hd]
    exact List.Forall₂.cons hdec (ih (fun j hj => h j (by simp [hj])) _)

/-! ### Invariants of the two passes -/

/-- The `.DB`/`.BYTE` loop only advances the address cursor: one byte per
successfully parsed value, everything else untouched. -/
theorem dbLoop_state (n : Nat) (pieces : List (List Char)) (st st' : AsmState)
    (h : dbLoop n st pieces = .ok st') :
    st'.instructions = st.instructions ∧ st'.labels = st.labels ∧
    st'.entry_point = st.entry_point ∧
    st'.current_address = st.current_address + pieces.length := by
  induction pieces generalizing st with
  | nil =>
    simp only [dbLoop] at h
    injection h with h
    simp [← h]
  | cons p rest ih =>
    simp only [dbLoop] at h
    cases hp : parse_number (stripChars p) with
    | none => rw [hp] at h; exact absurd h (by simp)
    | some v =>
      rw [hp] at h
      obtain ⟨h1, h2, h3, h4⟩ := ih _ h
      refine ⟨h1, h2, h3, ?_⟩
      simp at h4
      rw [h4]
      simp [List.length_cons]
      ring

/-- Directive handling (`handle_directive`) never appends an instruction. -/
theorem handle_directive_instructions (st st' : AsmState) (d op : List Char)
    (n : Nat) (h : handle_directive st d op n = .ok st') :
    st'.instructions = st.instructions := by
  unfold handle_directive at h
  simp only [] at h
  split at h
  · cases hp : parse_number op with
    | none => rw [hp] at h; exact absurd h (by simp)
    | some v => rw [hp] at h; injection h with h; simp [← h]
  · split at h
    · split at h
      · injection h with h; simp [← h]
      · cases hp : parse_number (stripChars op) with
        | none => rw [hp] at h; exact absurd h (by simp)
        | some v => rw [hp] at h; injection h with h; simp [← h]
    · split at h
      · exact (dbLoop_state _ _ _ _ h).1
      · exact absurd h (by simp)

/-- Instructions appended by pass 1 always carry an assigned opcode. -/
theorem parseInstrPart_assigned (st st' : AsmState) (l : List Char) (n : Nat)
    (h : parseInstrPart st l n = .ok st')
    (ha : ∀ i ∈ st.instructions, (opcode_names i.opcode).isSome) :
    ∀ i ∈ st'.instructions, (opcode_names i.opcode).isSome := by
  unfold parseInstrPart at h
  simp only [] at h
  split at h
  · rw [handle_directive_instructions _ _ _ _ _ h]; exact ha
  · cases hop : OPCODE_BY_NAME (upper (l.takeWhile (fun c => !c.isWhitespace))) with
    | none => rw [hop] at h; exact absurd h (by simp)
    | some opcode =>
      rw [hop] at h
      simp only [] at h
      have hass := OPCODE_BY_NAME_assigned hop
      split at h
      · split at h
        · exact absurd h (by simp)
        · cases hpo : parse_operand
              ((l.dropWhile (fun c => !c.isWhitespace)).dropWhile Char.isWhitespace) n with
          | error e => rw [hpo] at h; exact absurd h (by simp)
          | ok p =>
            obtain ⟨v, lab⟩ := p
            rw [hpo] at h
            simp only [] at h
            injection h with h
            intro i hi
            rw [← h] at hi
            simp only [List.mem_append, List.mem_singleton] at hi
            rcases hi with hi | hi
            · exact ha i hi
            · rw [hi]; exact hass
      · split at h
        · exact absurd h (by simp)
        · injection h with h
          intro i hi
          rw [← h] at hi
          simp only [List.mem_append, List.mem_singleton] at hi
          rcases hi with hi | hi
          · exact ha i hi
          · rw [hi]; exact hass

theorem parse_line_assigned (st st' : AsmState) (l : List Char) (n : Nat)
    (h : parse_line st l n = .ok st')
    (ha : ∀ i ∈ st.instructions, (opcode_names i.opcode).isSome) :
    ∀ i ∈ st'.instructions, (opcode_names i.opcode).isSome := by
  unfold parse_line at h
  simp only [] at h
  split at h
  · injection h with h; rw [← h]; exact ha
  · split at h
    · split at h
      · exact absurd h (by simp)
      · split at h
        · injection h with h; rw [← h]; exact ha
        · exact parseInstrPart_assigned _ _ _ _ h ha
    · exact parseInstrPart_assigned _ _ _ _ h ha

theorem runLines_assigned (lines : List (List Char × Nat)) (st st' : AsmState)
    (h : runLines st lines = .ok st')
    (ha : ∀ i ∈ st.instructions, (opcode_names i.opcode).isSome) :
    ∀ i ∈ st'.instructions, (opcode_names i.opcode).isSome := by
  induction lines generalizing st with
  | nil => simp only [runLines] at h; injection h with h; rw [← h]; exact ha
  | cons p rest ih =>
    obtain ⟨l, n⟩ := p
    simp only [runLines] at h
    cases hp : parse_line st l n with
    | error e => rw [hp] at h; exact absurd h (by simp)
    | ok st1 =>
      rw [hp] at h
      exact ih _ h (parse_line_assigned _ _ _ _ hp ha)

/-- Pass 2 rewrites only the `operand` field of an instruction. -/
theorem resolveInstr_fields (L : List (List Char × Label)) (i i' : Instruction)
    (h : resolveInstr L i = .ok i') :
    i'.opcode = i.opcode ∧ i'.address = i.address ∧ i'.line_num = i.line_num ∧
    i'.operand_label = i.operand_label := by
  unfold resolveInstr at h
  simp only [] at h
  split at h
  · injection h with h; simp [← h]
  · split at h
    · exact absurd h (by simp)
    · split at h
      · split at h
        · exact absurd h (by simp)
        · injection h with h; simp [← h]
      · injection h with h; simp [← h]

theorem resolveInstrs_forall₂ (L : List (List Char × Label))
    (instrs out : List Instruction) (h : resolveInstrs L instrs = .ok out) :
    List.Forall₂ (fun i i' => resolveInstr L i = .ok i') instrs out := by
  induction instrs generalizing out with
  | nil => simp only [resolveInstrs] at h; injection h with h; rw [← h]; exact .nil
  | cons i rest ih =>
    simp only [resolveInstrs] at h
    cases h1 : resolveInstr L i with
    | error e => rw [h1] at h; exact absurd h (by simp)
    | ok i' =>
      rw [h1] at h
      cases h2 : resolveInstrs L rest with
      | error e => rw [h2] at h; exact absurd h (by simp)
      | ok rest' =>
        rw [h2] at h
        injection h with h
        rw [← h]
        exact .cons h1 (ih _ h2)

theorem forall₂_mem_right {α β : Type} {R : α → β → Prop} {l : List α}
    {l' : List β} (h : List.Forall₂ R l l') :
    ∀ x ∈ l', ∃ y ∈ l, R y x := by
  induction h with
  | nil => intro x hx; exact absurd hx (by simp)
  | cons hr _ ih =>
    intro x hx
    rcases List.mem_cons.mp hx with hx | hx
    · exact ⟨_, by simp, hx ▸ hr⟩
    · obtain ⟨y, hy, hR⟩ := ih x hx
      exact ⟨y, by simp [hy], hR⟩

theorem resolve_labels_assigned (st st' : AsmState)
    (h : resolve_labels st = .ok st')
    (ha : ∀ i ∈ st.instructions, (opcode_names i.opcode).isSome) :
    ∀ i ∈ st'.instructions, (opcode_names i.opcode).isSome := by
  unfold resolve_labels at h
  cases hr : resolveInstrs st.labels st.instructions with
  | error e => rw [hr] at h; exact absurd h (by simp)
  | ok instrs' =>
    rw [hr] at h
    have hf := resolveInstrs_forall₂ _ _ _ hr
    have hout : ∀ i ∈ instrs', (opcode_names i.opcode).isSome := by
      intro i' hi'
      obtain ⟨i, hi, hres⟩ := forall₂_mem_right hf i' hi'
      rw [(resolveInstr_fields _ _ _ hres).1]
      exact ha i hi
    simp only [] at h
    cases hep : st.entry_point with
    | inl v =>
      rw [hep] at h
      simp only [] at h
      injection h with h; rw [← h]; exact hout
    | inr name =>
      rw [hep] at h
      simp only [] at h
      cases hl : lookupAssoc st.labels name with
      | none => rw [hl] at h; exact absurd h (by simp)
      | some lab =>
        rw [hl] at h
        simp only [] at h
        injection h with h; rw [← h]; exact hout

/-- C1.  For every source text that assembles without error (all lines
parse, all label references resolve), disassembling the emitted byte
sequence decodes exactly one line per assembled instruction, with the
same opcode mnemonic and the same operand value at its declared width. -/
theorem c1_assemble_disassemble_roundtrip (src : List Char) (st : AsmState)
    (bc : List Nat) (h : assemble src = .ok (st, bc)) :
    List.Forall₂ decodesTo (disassemble bc 0) st.instructions := by
  unfold assemble at h
  cases hp : pass1 initState src with
  | error e => rw [hp] at h; exact absurd h (by simp)
  | ok st1 =>
    rw [hp] at h
    simp only [] at h
    cases hr : resolve_labels st1 with
    | error e => rw [hr] at h; exact absurd h (by simp)
    | ok st2 =>
      rw [hr] at h
      simp only [] at h
      injection h with h
      have hst : st2 = st := (Prod.mk.injEq _ _ _ _).mp h |>.1
      have hbc : emit_bytecode st2 = bc := (Prod.mk.injEq _ _ _ _).mp h |>.2
      have ha0 : ∀ i ∈ initState.instructions, (opcode_names i.opcode).isSome := by
        simp [initState]
      have ha1 := runLines_assigned _ _ _ hp ha0
      have ha2 := resolve_labels_assigned _ _ hr ha1
      rw [← hst, ← hbc]
      exact emit_disassemble st2.instructions ha2 0

/-- C1 witness: the spec's own four-line example program assembles to
`[0x40,10,0x40,20,0x20,0x01]` and disassembles back to a matching line
per instruction. -/
theorem c1_roundtrip_witness :
    List.Forall₂ decodesTo (disassemble [0x40, 10, 0x40, 20, 0x20, 0x01] 0)
      [⟨0x40, some 10, none, 1, 0⟩, ⟨0x40, some 20, none, 2, 2⟩,
       ⟨0x20, none, none, 3, 4⟩, ⟨0x01, none, none, 4, 5⟩] :=
  c1_assemble_disassemble_roundtrip "PUSH8 10\nPUSH8 20\nADD\nHALT".toList
    ⟨[⟨0x40, some 10, none, 1, 0⟩, ⟨0x40, some 20, none, 2, 2⟩,
      ⟨0x20, none, none, 3, 4⟩, ⟨0x01, none, none, 4, 5⟩], [], Sum.inl 0, 6⟩
    [0x40, 10, 0x40, 20, 0x20, 0x01] (by decide)

set_option maxRecDepth 4000 in
/-- C2.  Over all 256 opcode bytes, `get_operand_size` follows the four
numeric-range classes (0 bytes for 0x00-0x3F, 1 for 0x40-0x7F, 2 for
0x80-0xBF, 4 for 0xC0-0xFF), with exactly two exceptions, both of width
0: RET = 0x94 (a 2-byte-range opcode) and the contiguous
type-conversion block 0xA0-0xA6 (seven 2-byte-range opcodes). -/
theorem c2_operand_width_classes :
    (∀ op : Fin 256,
      (get_operand_size op.val =
        if op.val = 0x94 ∨ (0xA0 ≤ op.val ∧ op.val ≤ 0xA6) then 0
        else rangeWidth op.val) ∧
      (get_operand_size op.val ≠ rangeWidth op.val ↔
        op.val = 0x94 ∨ (0xA0 ≤ op.val ∧ op.val ≤ 0xA6))) ∧
    OPCODE_BY_NAME "RET".toList = some 0x94 ∧
    rangeWidth 0x94 = 2 ∧ (∀ k : Fin 7, rangeWidth (0xA0 + k.val) = 2) := by decide

/-- C3 counterexample.  The claim says `width(opcode)` yields a distinct
"unknown" outcome for unassigned bytes rather than silently defaulting
to the range-based width.  But byte 0x60 is not an assigned opcode and
`get_operand_size` still returns the plain range-based width 1 for it —
a silent default, with no unknown outcome in its codomain. -/
theorem c3_counterexample :
    opcode_names 0x60 = none ∧ get_operand_size 0x60 = rangeWidth 0x60 ∧
    get_operand_size 0x60 = 1 := by decide

/-- C3, amended.  `get_operand_size` is total over all byte values with
values in {0,1,2,4}; the distinct "unknown" outcome for unassigned
opcodes is produced by the disassembler, which checks assignment before
consulting the width function: an unassigned byte decodes to an
`unknown` line and the scan advances one byte. -/
theorem c3_amended_width_total_unknown_in_disassembler :
    ∀ op : Fin 256,
      (get_operand_size op.val = 0 ∨ get_operand_size op.val = 1 ∨
       get_operand_size op.val = 2 ∨ get_operand_size op.val = 4) ∧
      (opcode_names op.val = none →
        ∀ rest addr, disassemble (op.val :: rest) addr =
          .unknown addr op.val :: disassemble rest (addr + 1)) := by
  intro op
  refine ⟨get_operand_size_cases op.val, ?_⟩
  intro hnone rest addr
  simp [disassemble, hnone]

theorem c3_amended_witness :
    disassemble [0x60] 0 = [.unknown 0 0x60] := by
  have h := (c3_amended_width_total_unknown_in_disassembler
    ⟨0x60, by norm_num⟩).2 (by decide) [] 0
  rw [h]
  simp [disassemble]

/-- Pass 2 success determines the resolved instruction list. -/
theorem resolve_labels_instructions (st st' : AsmState)
    (h : resolve_labels st = .ok st') :
    resolveInstrs st.labels st.instructions = .ok st'.instructions := by
  unfold resolve_labels at h
  cases hr : resolveInstrs st.labels st.instructions with
  | error e => rw [hr] at h; exact absurd h (by simp)
  | ok instrs' =>
    rw [hr] at h
    simp only [] at h
    cases hep : st.entry_point with
    | inl v =>
      rw [hep] at h
      simp only [] at h
      injection h with h; rw [← h]
    | inr name =>
      rw [hep] at h
      simp only [] at h
      cases hl : lookupAssoc st.labels name with
      | none => rw [hl] at h; exact absurd h (by simp)
      | some lab =>
        rw [hl] at h
        simp only [] at h
        injection h with h; rw [← h]

/-- A successfully resolved relative branch: in-range offset, encoded as
`(target − (addr+2)) mod 256`. -/
theorem resolveInstr_relative (L : List (List Char × Label)) (i i' : Instruction)
    (h : resolveInstr L i = .ok i') (hrel : i.opcode ∈ relOps)
    (l : List Char) (hl : i.operand_label = some l) :
    ∃ lab, lookupAssoc L (upper l) = some lab ∧
      -128 ≤ lab.address - (i.address + 2) ∧
      lab.address - (i.address + 2) ≤ 127 ∧
      i'.operand = some ((lab.address - (i.address + 2)).emod 256) := by
  unfold resolveInstr at h
  rw [hl] at h
  simp only [] at h
  cases hlk : lookupAssoc L (upper l) with
  | none => rw [hlk] at h; exact absurd h (by simp)
  | some lab =>
    rw [hlk] at h
    simp only [] at h
    rw [if_pos hrel] at h
    refine ⟨lab, rfl, ?_⟩
    split at h
    · exact absurd h (by simp)
    · rename_i hrange
      push_neg at hrange
      injection h with h
      refine ⟨by omega, by omega, ?_⟩
      rw [← h]

/-- C4.  Whenever pass 2 succeeds, every relative-branch instruction
(JR/JRZ/JRNZ) whose operand is a label got the operand
`target_address − (instruction_address + 2)` encoded as a byte mod 256,
and that offset was within [−128,127]; contrapositively, an offset
outside the range can never survive `resolve_labels` — resolution
fails with an error rather than silently truncating. -/
theorem c4_relative_branch_resolution (st st' : AsmState)
    (h : resolve_labels st = .ok st') :
    List.Forall₂ (fun i i' =>
        i.opcode ∈ relOps → ∀ l, i.operand_label = some l →
          ∃ lab, lookupAssoc st.labels (upper l) = some lab ∧
            -128 ≤ lab.address - (i.address + 2) ∧
            lab.address - (i.address + 2) ≤ 127 ∧
            i'.operand = some ((lab.address - (i.address + 2)).emod 256))
      st.instructions st'.instructions := by
  have hf := resolveInstrs_forall₂ _ _ _ (resolve_labels_instructions _ _ h)
  exact hf.imp (fun a b hres hrel l hl =>
    resolveInstr_relative st.labels a b hres hrel l hl)

/-- C4 witness: a concrete `JR LOOP` at address 2 jumping back to a label
at address 0 resolves to offset −4, encoded 252. -/
theorem c4_relative_branch_witness :
    List.Forall₂ (fun i i' : Instruction =>
        i.opcode ∈ relOps → ∀ l, i.operand_label = some l →
          ∃ lab, lookupAssoc [("LOOP".toList, ⟨"LOOP".toList, 0, 1⟩)] (upper l) = some lab ∧
            -128 ≤ lab.address - (i.address + 2) ∧
            lab.address - (i.address + 2) ≤ 127 ∧
            i'.operand = some ((lab.address - (i.address + 2)).emod 256))
      ([⟨0x50, none, some "loop".toList, 2, 2⟩] : List Instruction)
      ([⟨0x50, some 252, some "loop".toList, 2, 2⟩] : List Instruction) :=
  c4_relative_branch_resolution
    ⟨[⟨0x50, none, some "loop".toList, 2, 2⟩],
      [("LOOP".toList, ⟨"LOOP".toList, 0, 1⟩)], Sum.inl 0, 4⟩
    ⟨[⟨0x50, some 252, some "loop".toList, 2, 2⟩],
      [("LOOP".toList, ⟨"LOOP".toList, 0, 1⟩)], Sum.inl 0, 4⟩
    (by decide)

/-! ### Module encoder (`create_zplc_file`) -/

def ZPLC_MAGIC : Nat := 0x434C505A

/-- Method `ZPLCAssembler.create_zplc_file`: 32-byte little-endian header
(`struct.pack` with format IHHIIIIHHI), one 8-byte code-segment table
entry (`HHI`: type 1 = code, flags 0, size), then the bytecode.  The
entry-point field is the assembler's entry point when it is an integer,
else 0.  `none` models `struct.error`: `pack` rejects an entry point
outside u16 or a code size outside u32 (every other field is a constant
in range). -/
def create_zplc_file (entry_point : Int ⊕ List Char) (bytecode : List Nat) :
    Option (List Nat) :=
  let code_size := bytecode.length
  let ep : Int := match entry_point with | Sum.inl n => n | Sum.inr _ => 0
  if 0 ≤ ep ∧ ep < 65536 ∧ code_size < 4294967296 then
    some (leBytes 4 ZPLC_MAGIC ++ leBytes 2 1 ++ leBytes 2 0 ++ leBytes 4 0 ++
      leBytes 4 0 ++ leBytes 4 code_size ++ leBytes 4 0 ++ leBytes 2 ep.toNat ++
      leBytes 2 1 ++ leBytes 4 0 ++
      (leBytes 2 1 ++ leBytes 2 0 ++ leBytes 4 code_size) ++ bytecode)
  else none

/-- C5.  For every bytecode (of `u32`-representable size) and integer
entry point in `u16` range, the module encoder returns exactly the
32-byte little-endian header — magic "ZPLC", version 1.0, flags 0,
checksum 0, code size, data size 0, entry point, segment count 1,
reserved 0 — followed by one 8-byte segment entry (type 1 = code,
flags 0, size) and the bytecode itself.  The function is pure, so
encoding the same bytecode twice yields byte-identical output. -/
theorem c5_module_layout (bytecode : List Nat) (n : Int)
    (h1 : 0 ≤ n) (h2 : n < 65536) (h3 : bytecode.length < 4294967296) :
    ∃ out, create_zplc_file (Sum.inl n) bytecode = some out ∧
      out.length = 40 + bytecode.length ∧
      out.take 4 = [0x5A, 0x50, 0x4C, 0x43] ∧
      (out.drop 4).take 2 = [1, 0] ∧
      (out.drop 6).take 2 = [0, 0] ∧
      (out.drop 8).take 4 = [0, 0, 0, 0] ∧
      (out.drop 12).take 4 = [0, 0, 0, 0] ∧
      (out.drop 16).take 4 = leBytes 4 bytecode.length ∧
      (out.drop 20).take 4 = [0, 0, 0, 0] ∧
      (out.drop 24).take 2 = leBytes 2 n.toNat ∧
      (out.drop 26).take 2 = [1, 0] ∧
      (out.drop 28).take 4 = [0, 0, 0, 0] ∧
      (out.drop 32).take 8 = [1, 0, 0, 0] ++ leBytes 4 bytecode.length ∧
      out.drop 40 = bytecode := by
  refine ⟨leBytes 4 ZPLC_MAGIC ++ leBytes 2 1 ++ leBytes 2 0 ++ leBytes 4 0 ++
    leBytes 4 0 ++ leBytes 4 bytecode.length ++ leBytes 4 0 ++
    leBytes 2 n.toNat ++ leBytes 2 1 ++ leBytes 4 0 ++
    (leBytes 2 1 ++ leBytes 2 0 ++ leBytes 4 bytecode.length) ++ bytecode,
    by simp [create_zplc_file, h1, h2, h3], ?_, ?_, ?_, ?_, ?_, ?_, ?_, ?_, ?_,
    ?_, ?_, ?_, ?_⟩ <;>
  simp [leBytes, ZPLC_MAGIC]
  omega

/-- C5 witness: a one-byte program `[7]` with entry point 2. -/
theorem c5_module_layout_witness :
    ∃ out, create_zplc_file (Sum.inl 2) [7] = some out ∧
      out.length = 40 + 1 ∧
      out.take 4 = [0x5A, 0x50, 0x4C, 0x43] ∧
      (out.drop 4).take 2 = [1, 0] ∧
      (out.drop 6).take 2 = [0, 0] ∧
      (out.drop 8).take 4 = [0, 0, 0, 0] ∧
      (out.drop 12).take 4 = [0, 0, 0, 0] ∧
      (out.drop 16).take 4 = leBytes 4 1 ∧
      (out.drop 20).take 4 = [0, 0, 0, 0] ∧
      (out.drop 24).take 2 = leBytes 2 2 ∧
      (out.drop 26).take 2 = [1, 0] ∧
      (out.drop 28).take 4 = [0, 0, 0, 0] ∧
      (out.drop 32).take 8 = [1, 0, 0, 0] ++ leBytes 4 1 ∧
      out.drop 40 = [7] :=
  c5_module_layout [7] 2 (by decide) (by decide) (by decide)

/-- C9.  A successful `.DB`/`.BYTE` directive with its comma-separated
value list advances the address cursor by exactly one byte per value
(shifting every later label and instruction address) while leaving the
instruction list — and therefore the emitted byte sequence — entirely
unchanged: none of the listed values reach the output. -/
theorem c9_db_directive (st st' : AsmState) (operand : List Char) (n : Nat)
    (d : List Char) (hd : d = ".DB".toList ∨ d = ".BYTE".toList)
    (h : handle_directive st d operand n = .ok st') :
    st'.instructions = st.instructions ∧ st'.labels = st.labels ∧
    st'.entry_point = st.entry_point ∧
    st'.current_address = st.current_address + (splitOnComma operand).length ∧
    emit_bytecode st' = emit_bytecode st := by
  have hdb : handle_directive st d operand n = dbLoop n st (splitOnComma operand) := by
    rcases hd with hd | hd <;> subst hd <;>
      · unfold handle_directive
        rw [if_neg (by decide), if_neg (by decide), if_pos (by decide)]
  rw [hdb] at h
  obtain ⟨h1, h2, h3, h4⟩ := dbLoop_state _ _ _ _ h
  exact ⟨h1, h2, h3, h4, by unfold emit_bytecode; rw [h1]⟩

/-- C9 witness: `.DB 1,2,3` from a fresh state advances the cursor by 3
and emits nothing. -/
theorem c9_db_directive_witness :
    (⟨[], [], Sum.inl 0, 3⟩ : AsmState).instructions =
      (⟨[], [], Sum.inl 0, 0⟩ : AsmState).instructions ∧
    (⟨[], [], Sum.inl 0, 3⟩ : AsmState).labels =
      (⟨[], [], Sum.inl 0, 0⟩ : AsmState).labels ∧
    (⟨[], [], Sum.inl 0, 3⟩ : AsmState).entry_point =
      (⟨[], [], Sum.inl 0, 0⟩ : AsmState).entry_point ∧
    (⟨[], [], Sum.inl 0, 3⟩ : AsmState).current_address =
      (⟨[], [], Sum.inl 0, 0⟩ : AsmState).current_address +
        (splitOnComma "1,2,3".toList).length ∧
    emit_bytecode ⟨[], [], Sum.inl 0, 3⟩ = emit_bytecode ⟨[], [], Sum.inl 0, 0⟩ :=
  c9_db_directive ⟨[], [], Sum.inl 0, 0⟩ ⟨[], [], Sum.inl 0, 3⟩
    "1,2,3".toList 1 ".DB".toList (Or.inl rfl) (by decide)

/-! ### Transport client (`tools/hil/zplc_tester.py`)

The serial channel is modelled as a response stream `device : Nat →
List Char`: the n-th call to `send` transmits its command and reads back
`device n` (what the Python `send` accumulates until the prompt, the
success token or the timeout).  A `Session` records the stream, how many
sends have happened and every command sent.  `upload_bytecode` contains
no `raise`, so its `Except` error type is `Empty`: every path is a
normal `return`. -/

/-- Python's `x in y` substring test. -/
def hasSubstr (needle : List Char) : List Char → Bool
  | [] => needle.isPrefixOf []
  | c :: t => needle.isPrefixOf (c :: t) || hasSubstr needle t

/-- The success-token check `"OK:" in resp`. -/
def containsOK (resp : List Char) : Bool := hasSubstr "OK:".toList resp

structure Session where
  device : Nat → List Char
  idx : Nat
  sent : List (List Char)

/-- Method `ZPLCTester.send`: transmit one command line, read one response. -/
def send (sess : Session) (cmd : List Char) : Session × List Char :=
  (⟨sess.device, sess.idx + 1, sess.sent ++ [cmd]⟩, sess.device sess.idx)

/-- The `zplc load <n>` retry loop: up to the given number of attempts,
stopping at the first response containing the success token. -/
def tryLoad : Session → Nat → Nat → Session × Bool
  | sess, _, 0 => (sess, false)
  | sess, n, k + 1 =>
    let r := send sess ("zplc load ".toList ++ (toString n).toList)
    if containsOK r.2 then (r.1, true) else tryLoad r.1 n k

/-- Python `binascii.hexlify`: two lowercase hex digits per byte. -/
def hexDigitChar (n : Nat) : Char :=
  if n < 10 then Char.ofNat (48 + n) else Char.ofNat (87 + n)

def hexlify : List Nat → List Char
  | [] => []
  | b :: t => hexDigitChar (b / 16 % 16) :: hexDigitChar (b % 16) :: hexlify t

/-- The `hex_data` string split into chunks of 32 hex characters (16 bytes). -/
def chunksOf32 (l : List Char) : List (List Char) :=
  match l with
  | [] => []
  | c :: t => ((c :: t).take 32) :: chunksOf32 ((c :: t).drop 32)
  termination_by l.length
  decreasing_by
    simp [List.length_drop]
    omega

/-- The `zplc data <chunk>` retry loop (3 attempts per chunk). -/
def trySendChunk : Session → List Char → Nat → Session × Bool
  | sess, _, 0 => (sess, false)
  | sess, chunk, k + 1 =>
    let r := send sess ("zplc data ".toList ++ chunk)
    if containsOK r.2 then (r.1, true) else trySendChunk r.1 chunk k

/-- All chunks in order, each retried; on an exhausted chunk the loop
stops and reports that chunk's character offset. -/
def sendChunks : Session → List (List Char) → Nat → Session × Option Nat
  | sess, [], _ => (sess, none)
  | sess, c :: rest, i =>
    let r := trySendChunk sess c 3
    if r.2 then sendChunks r.1 rest (i + 32) else (r.1, some i)

/-- How `upload_bytecode` returned: the `load` retries exhausted (the
`ERROR: zplc load failed` print), a data chunk's retries exhausted (the
`ERROR: zplc data chunk i failed` print), or the full upload. -/
inductive UploadOutcome where
  | loadFailed
  | chunkFailed (i : Nat)
  | completed
deriving DecidableEq

/-- Method `ZPLCTester.upload_bytecode`: stop, reset, `load` with 3 attempts —
on failure print and `return` (no exception, hence `Except Empty`) —
then the hex chunks, each with 3 attempts, then a final blank line. -/
def upload_bytecode (bc : List Nat) (device : Nat → List Char) :
    Except Empty (Session × UploadOutcome) :=
  let s1 := (send ⟨device, 0, []⟩ "zplc stop".toList).1
  let s2 := (send s1 "zplc reset".toList).1
  let r3 := tryLoad s2 bc.length 3
  if !r3.2 then .ok (r3.1, .loadFailed)
  else
    let r4 := sendChunks r3.1 (chunksOf32 (hexlify bc)) 0
    match r4.2 with
    | some i => .ok (r4.1, .chunkFailed i)
    | none => .ok ((send r4.1 "".toList).1, .completed)

/-- A `zplc data` chunk command. -/
def isDataCmd (c : List Char) : Bool := "zplc data ".toList.isPrefixOf c

/-- C6 counterexample.  The claim says that when `load` never yields a
success token within 3 attempts, upload RAISES a fatal transport error.
With a device that never answers, `upload_bytecode` instead returns
normally — `Except.ok` with the `loadFailed` outcome (the Python code
prints `ERROR: zplc load failed` and executes a plain `return`; there is
no `raise` on any path, which is why the embedded error type is
`Empty`).  The second half of the claim does hold: the five commands
sent are stop, reset and the three load attempts — no data chunk. -/
theorem c6_counterexample :
    upload_bytecode [1] (fun _ => []) =
      .ok (⟨fun _ => [], 5,
        ["zplc stop".toList, "zplc reset".toList, "zplc load 1".toList,
         "zplc load 1".toList, "zplc load 1".toList]⟩, .loadFailed) ∧
    (["zplc stop".toList, "zplc reset".toList, "zplc load 1".toList,
      "zplc load 1".toList, "zplc load 1".toList].all
        (fun c => !isDataCmd c)) = true :=
  ⟨by rfl, by decide⟩

/-- C6, amended.  If none of the three `load` attempts' responses
contains the success token (`send` consumes responses 0 and 1 for stop
and reset, so the load attempts read responses 2, 3 and 4), then
`upload_bytecode` reports the failure and returns early with the
`loadFailed` outcome — it logs rather than raises — and the session
transcript holds exactly stop, reset and the three load commands:
no `zplc data` chunk is ever sent. -/
theorem c6_amended_load_failure (bc : List Nat) (device : Nat → List Char)
    (h2 : containsOK (device 2) = false) (h3 : containsOK (device 3) = false)
    (h4 : containsOK (device 4) = false) :
    upload_bytecode bc device =
      .ok (⟨device, 5, ["zplc stop".toList, "zplc reset".toList,
        "zplc load ".toList ++ (toString bc.length).toList,
        "zplc load ".toList ++ (toString bc.length).toList,
        "zplc load ".toList ++ (toString bc.length).toList]⟩, .loadFailed) ∧
    (["zplc stop".toList, "zplc reset".toList,
      "zplc load ".toList ++ (toString bc.length).toList,
      "zplc load ".toList ++ (toString bc.length).toList,
      "zplc load ".toList ++ (toString bc.length).toList].all
        (fun c => !isDataCmd c)) = true := by
  constructor
  · simp [upload_bytecode, send, tryLoad, h2, h3, h4]
  · simp [isDataCmd, List.isPrefixOf]

/-- C6 witness: the amended theorem applied to a 2-byte program and a
device whose responses are all empty. -/
theorem c6_amended_load_failure_witness :
    upload_bytecode [32, 1] (fun _ => []) =
      .ok (⟨fun _ => [], 5, ["zplc stop".toList, "zplc reset".toList,
        "zplc load ".toList ++ (toString (2 : Nat)).toList,
        "zplc load ".toList ++ (toString (2 : Nat)).toList,
        "zplc load ".toList ++ (toString (2 : Nat)).toList]⟩, .loadFailed) ∧
    (["zplc stop".toList, "zplc reset".toList,
      "zplc load ".toList ++ (toString (2 : Nat)).toList,
      "zplc load ".toList ++ (toString (2 : Nat)).toList,
      "zplc load ".toList ++ (toString (2 : Nat)).toList].all
        (fun c => !isDataCmd c)) = true :=
  c6_amended_load_failure [32, 1] (fun _ => []) (by decide) (by decide) (by decide)

/-! ### `ZPLCTester.peek`

`peek` issues `zplc dbg peek <addr> <len>` and parses the textual
response; the response text is the model's input.  Per line, Python
takes `line.split(":")[1]` — the text between the line's FIRST and
SECOND colons (the whole remainder when there is no second colon) — and
`re.findall(r"([0-9A-Fa-f]{2})")` over it. -/

/-- The scan of `re.findall(r"([0-9A-Fa-f]{2})", s)`, one byte per
non-overlapping two-hex-digit match: a position whose character is not a
hex digit advances by one; after a failed second character the next
match attempt starts there and necessarily fails too, so the scan
continues after it. -/
def findPairs : List Char → List Nat
  | [] => []
  | c0 :: t =>
    match hexVal c0 with
    | none => findPairs t
    | some a =>
      match t with
      | [] => []
      | c1 :: rest =>
        match hexVal c1 with
        | some b => (16 * a + b) :: findPairs rest
        | none => findPairs rest

/-- One response line: skipped without a colon, else `split(":")[1]`
(between the first and second colon) fed to the hex scan. -/
def peekLine (l : List Char) : List Nat :=
  if ':' ∈ l then
    findPairs (((l.dropWhile (fun c => c ≠ ':')).drop 1).takeWhile (fun c => c ≠ ':'))
  else []

/-- The `bytes_out` accumulation loop over `resp.splitlines()`. -/
def peek_parse (resp : List Char) : List Nat :=
  (splitLines resp).foldl (fun acc l => acc ++ peekLine l) []

/-- Method `ZPLCTester.peek`: parsed bytes truncated to the requested length
(`bytes_out[:length]`). -/
def peek (length : Nat) (resp : List Char) : List Nat :=
  (peek_parse resp).take length

/-- Modelled from the spec for comparison (claim C7's wording): "every
two-hex-digit token following a colon on each response line", i.e. the
whole remainder of the line after its first colon, without stopping at a
second colon. -/
def specPeekLine (l : List Char) : List Nat :=
  if ':' ∈ l then findPairs ((l.dropWhile (fun c => c ≠ ':')).drop 1) else []

/-- Modelled from the spec for comparison: `peek` as claim C7 words it. -/
def specPeek (length : Nat) (resp : List Char) : List Nat :=
  ((splitLines resp).foldl (fun acc l => acc ++ specPeekLine l) []).take length

/-- C7 counterexample.  On the response line `x:y:AB` the token `AB`
follows a colon, so the claim's parse yields `[0xAB]`; the code's parse
reads only between the first and second colon (`y`) and yields `[]`. -/
theorem c7_counterexample :
    peek 4 "x:y:AB".toList = [] ∧ specPeek 4 "x:y:AB".toList = [0xAB] ∧
    peek 4 "x:y:AB".toList ≠ specPeek 4 "x:y:AB".toList := by decide

theorem peek_foldl_join (f : List Char → List Nat) (ls : List (List Char))
    (acc : List Nat) :
    ls.foldl (fun acc l => acc ++ f l) acc = acc ++ (ls.map f).flatten := by
  induction ls generalizing acc with
  | nil => simp
  | cons l rest ih => simp [ih]

/-- C7, amended.  `peek` parses, on each response line containing a
colon, every two-hex-digit token of the text between the line's first
and second colons (to end of line when there is only one), concatenates
the lines' bytes in order, and returns at most `length` of them; when
the device supplies fewer than `length` bytes the caller receives
exactly the shorter list — neither padded nor raised as an error. -/
theorem c7_amended_peek (length : Nat) (resp : List Char) :
    peek length resp = ((splitLines resp).map peekLine).flatten.take length ∧
    (peek length resp).length ≤ length ∧
    ((peek_parse resp).length ≤ length → peek length resp = peek_parse resp) := by
  refine ⟨?_, ?_, ?_⟩
  · unfold peek peek_parse
    rw [peek_foldl_join]
    simp
  · simp [peek]
  · intro h
    unfold peek
    exact List.take_of_length_le h

/-- C7 witness: a 4-byte request against a device line holding only two
hex bytes returns exactly those two bytes. -/
theorem c7_amended_peek_witness :
    peek 4 "00001000: aa bb".toList = peek_parse "00001000: aa bb".toList ∧
    peek 4 "00001000: aa bb".toList = [0xAA, 0xBB] :=
  ⟨(c7_amended_peek 4 "00001000: aa bb".toList).2.2 (by decide), by decide⟩

/-! ### `LanguageTester.poke` (`tools/hil/language_tester.py`)

`poke` builds a `bytearray`, filling it only when `size` is 1, 2 or 4
(`value & 0xFF`, `struct.pack("<H", value)`, `struct.pack("<I", value)`
— `pack` raises `struct.error` outside the unsigned range, the `none`
case), hex-encodes it and sends one
`zplc dbg poke <addr> <hex>` command.  The model returns the data bytes
and their hex payload. -/

def pokeData (value : Int) (size : Nat) : Option (List Nat) :=
  if size = 1 then some [(value.emod 256).toNat]
  else if size = 2 then
    if 0 ≤ value ∧ value < 65536 then some (leBytes 2 value.toNat) else none
  else if size = 4 then
    if 0 ≤ value ∧ value < 4294967296 then some (leBytes 4 value.toNat) else none
  else some []

def poke (_address value : Int) (size : Nat) : Option (List Nat × List Char) :=
  (pokeData value size).map (fun d => (d, hexlify d))

/-- C10.  Calling `poke` with a width other than 1, 2 or 4 raises no
error and encodes nothing: the `bytearray` stays empty, so the command
is sent with an empty hex payload and the device receives no data
bytes. -/
theorem c10_poke_other_width (address value : Int) (size : Nat)
    (h1 : size ≠ 1) (h2 : size ≠ 2) (h3 : size ≠ 4) :
    poke address value size = some ([], []) := by
  unfold poke pokeData
  rw [if_neg h1, if_neg h2, if_neg h3]
  rfl

/-- C10 witness: width 3 silently sends an empty payload. -/
theorem c10_poke_other_width_witness :
    poke 0x1000 99 3 = some ([], []) :=
  c10_poke_other_width 0x1000 99 3 (by decide) (by decide) (by decide)

/-! ### C8: which errors belong to which pass -/

/-- The error kinds raised by pass 2 (`resolve_labels`): undefined
label, out-of-range relative offset, undefined entry label. -/
def isResolveErr : ErrKind → Bool
  | .undefinedLabel _ => true
  | .relOutOfRange _ _ => true
  | .undefinedEntry _ => true
  | _ => false

theorem parse_operand_err_kind (s : List Char) (n : Nat) (e : AsmErr)
    (h : parse_operand s n = .error e) : isResolveErr e.kind = false := by
  unfold parse_operand at h
  simp only [] at h
  split at h
  · exact absurd h (by simp)
  · split at h
    · exact absurd h (by simp)
    · split at h
      · exact absurd h (by simp)
      · injection h with h
        rw [← h]
        rfl

theorem dbLoop_err_kind (n : Nat) (pieces : List (List Char)) (st : AsmState)
    (e : AsmErr) (h : dbLoop n st pieces = .error e) :
    isResolveErr e.kind = false := by
  induction pieces generalizing st with
  | nil => simp [dbLoop] at h
  | cons p rest ih =>
    simp only [dbLoop] at h
    cases hp : parse_number (stripChars p) with
    | none => rw [hp] at h; injection h with h; rw [← h]; rfl
    | some v => rw [hp] at h; exact ih _ h

theorem handle_directive_err_kind (st : AsmState) (d op : List Char) (n : Nat)
    (e : AsmErr) (h : handle_directive st d op n = .error e) :
    isResolveErr e.kind = false := by
  unfold handle_directive at h
  split at h
  · cases hp : parse_number op with
    | none => rw [hp] at h; injection h with h; rw [← h]; rfl
    | some v => rw [hp] at h; exact absurd h (by simp)
  · split at h
    · simp only [] at h
      split at h
      · exact absurd h (by simp)
      · cases hp : parse_number (stripChars op) with
        | none => rw [hp] at h; injection h with h; rw [← h]; rfl
        | some v => rw [hp] at h; exact absurd h (by simp)
    · split at h
      · exact dbLoop_err_kind _ _ _ _ h
      · injection h with h; rw [← h]; rfl

theorem parseInstrPart_err_kind (st : AsmState) (l : List Char) (n : Nat)
    (e : AsmErr) (h : parseInstrPart st l n = .error e) :
    isResolveErr e.kind = false := by
  unfold parseInstrPart at h
  simp only [] at h
  split at h
  · exact handle_directive_err_kind _ _ _ _ _ h
  · cases hop : OPCODE_BY_NAME (upper (l.takeWhile (fun c => !c.isWhitespace))) with
    | none => rw [hop] at h; injection h with h; rw [← h]; rfl
    | some opcode =>
      rw [hop] at h
      simp only [] at h
      split at h
      · split at h
        · injection h with h; rw [← h]; rfl
        · cases hpo : parse_operand
              ((l.dropWhile (fun c => !c.isWhitespace)).dropWhile Char.isWhitespace) n with
          | error e1 =>
            rw [hpo] at h
            injection h with h
            rw [← h]
            exact parse_operand_err_kind _ _ _ hpo
          | ok p =>
            obtain ⟨v, lab⟩ := p
            rw [hpo] at h
            simp only [] at h
            exact absurd h (by simp)
      · split at h
        · injection h with h; rw [← h]; rfl
        · exact absurd h (by simp)

theorem parse_line_err_kind (st : AsmState) (l : List Char) (n : Nat)
    (e : AsmErr) (h : parse_line st l n = .error e) :
    isResolveErr e.kind = false := by
  unfold parse_line at h
  simp only [] at h
  split at h
  · exact absurd h (by simp)
  · split at h
    · split at h
      · injection h with h; rw [← h]; rfl
      · split at h
        · exact absurd h (by simp)
        · exact parseInstrPart_err_kind _ _ _ _ h
    · exact parseInstrPart_err_kind _ _ _ _ h

theorem runLines_err_kind (lines : List (List Char × Nat)) (st : AsmState)
    (e : AsmErr) (h : runLines st lines = .error e) :
    isResolveErr e.kind = false := by
  induction lines generalizing st with
  | nil => simp [runLines] at h
  | cons p rest ih =>
    obtain ⟨l, n⟩ := p
    simp only [runLines] at h
    cases hp : parse_line st l n with
    | error e1 =>
      rw [hp] at h
      injection h with h
      rw [← h]
      exact parse_line_err_kind _ _ _ _ hp
    | ok st1 => rw [hp] at h; exact ih _ h

/-- C8 counterexample.  The claim classifies duplicate-label as a link
error surfaced only after all syntax errors.  But a duplicate label is
detected during pass 1 and raised immediately: on the source
`A: NOP / A: NOP / BADOP`, `assemble` reports the duplicate label of
line 2 even though line 3 contains a (never reported) syntax error —
`BADOP` is an unknown mnemonic, as the second conjunct shows. -/
theorem c8_counterexample :
    assemble "A: NOP\nA: NOP\nBADOP".toList =
      .error ⟨.duplicateLabel "A".toList, 2⟩ ∧
    parse_line initState "BADOP".toList 3 =
      .error ⟨.unknownInstruction "BADOP".toList, 3⟩ := by decide

/-- C8, amended.  Undefined-label, out-of-range-relative-offset and
undefined-entry failures do surface only after all syntax errors:
whenever `assemble` fails with one of those pass-2 kinds, pass 1 had
already parsed every line of the source without error.  (Duplicate
labels, by contrast, are raised immediately during pass 1.) -/
theorem c8_amended_resolve_errors_after_pass1 (src : List Char) (e : AsmErr)
    (h : assemble src = .error e) (hk : isResolveErr e.kind = true) :
    (pass1 initState src).isOk = true := by
  unfold assemble at h
  cases hp : pass1 initState src with
  | error e1 =>
    rw [hp] at h
    injection h with h
    rw [h] at hp
    have hkind := runLines_err_kind (numberLines src) initState e hp
    rw [hkind] at hk
    exact Bool.noConfusion hk
  | ok st1 => rfl

/-- C8 witness: `JMP NOWHERE` fails with an undefined-label error, and
pass 1 indeed parsed both lines without a syntax error. -/
theorem c8_amended_witness :
    (pass1 initState "NOP\nJMP NOWHERE".toList).isOk = true :=
  c8_amended_resolve_errors_after_pass1 "NOP\nJMP NOWHERE".toList
    ⟨.undefinedLabel "NOWHERE".toList, 2⟩ (by decide) (by decide)

end ZPLC
